import Mathlib

/-!
Verification of the command-dispatch and permission-resolution core of the
valveGamesAnnouncerBot repository (a multi-platform game-update notification
bot), via a shallow embedding of the relevant TypeScript source into Lean.

Conventions of the embedding:
* Strings are Lean `String`s; remote platform calls that can throw are
  modelled with `Except Unit`.
* JavaScript regular expressions are modelled by an explicit abstract syntax
  (`Rx`) together with a backtracking matcher (`mcap`) that mirrors the
  leftmost / greedy / left-alternative-first priority order of the
  ECMAScript matching algorithm.  Fuel arguments make the functions
  structurally recursive; a fuel of `length + 1` is always sufficient for
  the Kleene-star loop because every iteration must consume a character
  (exactly as in ECMAScript, where an empty repetition terminates the loop).
-/

set_option autoImplicit false

namespace ValveBot

/-! ### Role model

Source `src/user.ts` (enum `UserRole` / `UserPermission` with levels
USER < ADMIN < OWNER) and spec section 4.1. -/

/-- The permission tiers of the bot, ordered USER < ADMIN < OWNER. -/
inductive UserRole where
  | USER
  | ADMIN
  | OWNER
deriving DecidableEq, Repr

/-- Ordinal of a role in the total order USER < ADMIN < OWNER. -/
def UserRole.ord : UserRole → Nat
  | .USER => 0
  | .ADMIN => 1
  | .OWNER => 2

/-- `satisfies actual required` (spec section 4.1): an actual role grants a
required role iff its ordinal is at least as large. -/
def satisfies (actual required : UserRole) : Bool :=
  required.ord ≤ actual.ord

/-! ### Telegram permission resolver

Source: `TelegramBot.getUserPermission` (telegram bot adapter, lines 57-86).
The whole body of the method is wrapped in a single `try`/`catch`; the
`catch` only logs, and the method then falls to the final `return
UserPermission.USER`.  The two remote calls `this.bot.getChat` and
`this.bot.getChatAdministrators` are modelled as `Except Unit` values held
in the environment; `Except.error` models a thrown platform error. -/

/-- Result of the Telegram `getChat` remote call, restricted to the fields
the resolver reads. -/
structure TelegramChat where
  all_members_are_administrators : Bool
  type : String
deriving DecidableEq, Repr

/-- The environment of one `getUserPermission` call: the invoking user's id,
the configured owner ids (from `getOwners`, a pure config read), and the
outcomes of the two remote platform calls. -/
structure TelegramEnv where
  userId : String
  ownerIds : List String
  getChat : Except Unit TelegramChat
  /-- `getChatAdministrators` may also resolve to a nullish value, which the
  source replaces by `[]` (`(await ...) || []`). -/
  getChatAdministrators : Except Unit (Option (List String))
deriving Repr

/-- The synthetic author id assigned to channel posts
(`private channelAuthorID: string = '-322'`). -/
def channelAuthorID : String := "-322"

/-- Shallow embedding of `TelegramBot.getUserPermission`.  The checks run in
source order inside one `try`; the first thrown remote call jumps to the
`catch` (which only logs) and the method returns `USER`. -/
def getUserPermission (env : TelegramEnv) : UserRole :=
  if env.userId = channelAuthorID then
    UserRole.ADMIN
  else if env.ownerIds.contains env.userId then
    UserRole.OWNER
  else
    match env.getChat with
    | .error _ => UserRole.USER
    | .ok chat =>
      if chat.all_members_are_administrators || chat.type = "private" then
        UserRole.ADMIN
      else
        match env.getChatAdministrators with
        | .error _ => UserRole.USER
        | .ok adminsOpt =>
          let adminIds := adminsOpt.getD []
          if adminIds.contains env.userId then UserRole.ADMIN
          else UserRole.USER

/-- Modelled from the spec: the ordered, short-circuiting resolution
algorithm of spec section 4.4, for the case in which both remote calls
succeed (steps run on plain values).  Used as the specification side of the
refinement claims about `getUserPermission`. -/
def resolveRoleSpec (userId : String) (ownerIds : List String)
    (chat : TelegramChat) (adminIds : List String) : UserRole :=
  if userId = channelAuthorID then UserRole.ADMIN
  else if ownerIds.contains userId then UserRole.OWNER
  else if chat.all_members_are_administrators || chat.type = "private" then
    UserRole.ADMIN
  else if adminIds.contains userId then UserRole.ADMIN
  else UserRole.USER

/-- Modelled from the spec: the failure semantics asserted by spec section
4.4 ("any remote-call failure at steps 3-4 is ... treated as fall through to
the next check"): a failing `getChat` proceeds to the administrator-list
check, and a failing administrator-list check proceeds to the final
default. -/
def resolveRoleFallthrough (env : TelegramEnv) : UserRole :=
  if env.userId = channelAuthorID then UserRole.ADMIN
  else if env.ownerIds.contains env.userId then UserRole.OWNER
  else
    let step4 :=
      match env.getChatAdministrators with
      | .error _ => UserRole.USER
      | .ok adminsOpt =>
        if (adminsOpt.getD []).contains env.userId then UserRole.ADMIN
        else UserRole.USER
    match env.getChat with
    | .error _ => step4
    | .ok chat =>
      if chat.all_members_are_administrators || chat.type = "private" then
        UserRole.ADMIN
      else step4

/-! ### Subscriber persistence

Source: `BotClient.addSubscriber` and `BotClient.removeSubscriber`
(`src/bot.ts`, lines 77-126).  Both operate on the slot
`subscribers[this.name][game.name]` of the JSON-backed store and call
`setSubscribers` exactly when they change it; the embedding keeps that slot
(a list of persisted channel entries) together with a flag recording
whether `setSubscribers` was called.  `channel.isEqual` and
`channel.toJSON` live in `src/channel.ts`, which is not part of the
sources; modelled from the spec ("Channel ... exposing: id"), a persisted
entry is the channel id and `isEqual` compares ids. -/

/-- Modelled from the spec: `BotChannel.isEqual` compares a channel with a
persisted entry by id. -/
def channelIsEqual (channelId entry : String) : Bool :=
  channelId = entry

/-- Result of a subscriber mutation: the boolean the method returns, the new
content of the `subscribers[this.name][game.name]` slot, and whether
`setSubscribers` was called. -/
structure SubResult where
  returned : Bool
  gameSubs : List String
  wrote : Bool
deriving DecidableEq, Repr

/-- Shallow embedding of `BotClient.addSubscriber` acting on the slot for
the given game: if some entry equals the channel, return `false` without
writing; otherwise push the channel's JSON (its id) and save. -/
def addSubscriber (gameSubs : List String) (channelId : String) : SubResult :=
  if gameSubs.any (fun sub => channelIsEqual channelId sub) then
    { returned := false, gameSubs := gameSubs, wrote := false }
  else
    { returned := true, gameSubs := gameSubs ++ [channelId], wrote := true }

/-- Shallow embedding of `BotClient.removeSubscriber`: splice out the first
entry equal to the channel and save; if no entry matches, return `false`
before any write. -/
def removeSubscriber (gameSubs : List String) (channelId : String) : SubResult :=
  if gameSubs.any (fun sub => channelIsEqual channelId sub) then
    { returned := true
      gameSubs := gameSubs.eraseP (fun sub => channelIsEqual channelId sub)
      wrote := true }
  else
    { returned := false, gameSubs := gameSubs, wrote := false }

/-! ### The prefix command

Source: `prefixCmd` (`src/commands/commands.ts` lines 243-318, and the
equivalent loop form at part_006 lines 238-315).  The handler works on the
channel list `subscribers[bot.name]` of the persisted store; a persisted
entry is `{ gameSubs, id, prefix }` where an absent/empty `prefix` field
means "no custom prefix override" (the source tests it with the falsy check
`!existingChannel.prefix`). -/

/-- A persisted subscriber entry (`Subscriber` in the data manager):
the channel id, its game subscriptions, and its stored prefix override
(`""` models an absent `prefix?` field, matching the falsy test). -/
structure Subscriber where
  gameSubs : List String
  id : String
  prefixStr : String
deriving DecidableEq, Repr

/-- The observable outcome of one `prefixCmd` invocation: the channel's
in-memory prefix afterwards, the persisted channel list afterwards, whether
the "Changing the bot's prefix" announcement was sent, whether the handler
itself called `setSubscriberData`, and whether it called
`bot.removeData`. -/
structure PrefixCmdResult where
  channelPrefixStr : String
  channels : List Subscriber
  announced : Bool
  savedData : Bool
  removedData : Bool
deriving DecidableEq, Repr

/-- Modelled from the spec: `bot.removeData(channel)` (not under `src/`)
"removes the channel's stored data (subscriptions and prefix override)",
i.e. drops the channel's persisted record. -/
def removeData (channelId : String) (channels : List Subscriber) : List Subscriber :=
  channels.filter (fun e => !(channelIsEqual channelId e.id))

/-- The persisted-store update of `prefixCmd` once the handler decides to
save: find the channel's entry (`findIndex` in commands.ts, the explicit
first-match loop in part_006 — same semantics), set its stored prefix to
the new prefix when that differs from the bot default and to `""`
otherwise, drop the entry entirely when it then has neither game
subscriptions nor a stored prefix, and append a fresh entry with the new
prefix when the channel was not registered. -/
def updateChannels (channelId newPrefix defaultPrefixStr : String) :
    List Subscriber → List Subscriber
  | [] => [{ gameSubs := [], id := channelId, prefixStr := newPrefix }]
  | sub :: rest =>
    if channelIsEqual channelId sub.id then
      let updated :=
        { sub with prefixStr := if newPrefix ≠ defaultPrefixStr then newPrefix else "" }
      if updated.gameSubs.length = 0 ∧ updated.prefixStr = "" then rest
      else updated :: rest
    else sub :: updateChannels channelId newPrefix defaultPrefixStr rest

/-- JavaScript `String.prototype.trim`: strip leading and trailing
whitespace (kernel-reducible, unlike `String.trim`). -/
def jsTrim (s : String) : String :=
  String.mk (((s.data.dropWhile Char.isWhitespace).reverse.dropWhile
    Char.isWhitespace).reverse)

/-- Shallow embedding of the `prefixCmd` handler.  `arg` is the
`newPrefix` capture group; `canWrite` is the outcome of the bot's own
permission check (`bot.getUserPermissions(await bot.getUser(), channel)`),
whose remote nature is irrelevant to the claims.  Mirrors the source's
control flow: empty argument replies and returns; `"reset"` is replaced by
the bot default; a non-writable channel has its data removed and nothing is
announced or saved; otherwise the change is announced, stored locally and
persisted. -/
def prefixCmd (defaultPrefixStr channelId channelPrefix0 arg : String)
    (canWrite : Bool) (channels : List Subscriber) : PrefixCmdResult :=
  let newPrefix0 := jsTrim arg
  if newPrefix0 = "" then
    { channelPrefixStr := channelPrefix0, channels := channels,
      announced := false, savedData := false, removedData := false }
  else
    let newPrefix := if newPrefix0 = "reset" then defaultPrefixStr else newPrefix0
    if !canWrite then
      { channelPrefixStr := channelPrefix0,
        channels := removeData channelId channels,
        announced := false, savedData := false, removedData := true }
    else
      { channelPrefixStr := newPrefix,
        channels := updateChannels channelId newPrefix defaultPrefixStr channels,
        announced := true, savedData := true, removedData := false }

/-! ### Role-gated help rendering

Source: the help generator of the command group
(`src/commands/commands.ts` lines 612-630) and the command registrations in
declaration order (lines 651-671).  The per-command rendered label
(`channelHelp`) lives in the Action classes, which are not part of the
sources; the rendering is modelled by the command's label, which is all the
claims need (which commands appear, and in which order). -/

/-- A registered command as the help generator sees it: its label and its
required role. -/
structure BotCommand where
  label : String
  role : UserRole
deriving DecidableEq, Repr

/-- The role-visibility switch of the help generator (the `switch
(cmd.role)` filter in commands.ts lines 616-627). -/
def cmdVisible (role : UserRole) (cmd : BotCommand) : Bool :=
  match cmd.role with
  | .OWNER => role = UserRole.OWNER
  | .ADMIN => role = UserRole.OWNER || role = UserRole.ADMIN
  | .USER => true

/-- The help generator: the labels of the commands visible to `role`, in
declaration order (`filter` keeps the registry order). -/
def channelHelpLabels (cmds : List BotCommand) (role : UserRole) : List String :=
  (cmds.filter (cmdVisible role)).map (fun cmd => cmd.label)

/-- The command registry in declaration order (commands.ts lines 651-671);
the roles are the ones passed to each constructor (default USER). -/
def commandsList : List BotCommand :=
  [{ label := "start", role := .USER },
   { label := "help", role := .USER },
   { label := "settings", role := .USER },
   { label := "about", role := .USER },
   { label := "games", role := .USER },
   { label := "flip", role := .USER },
   { label := "roll", role := .USER },
   { label := "stats", role := .USER },
   { label := "ping", role := .USER },
   { label := "debug", role := .USER },
   { label := "subscribe", role := .ADMIN },
   { label := "unsubscribe", role := .ADMIN },
   { label := "prefix", role := .ADMIN },
   { label := "notifyAll", role := .OWNER },
   { label := "notifyGameSubs", role := .OWNER },
   { label := "telegramCmds", role := .OWNER }]

/-! ### A model of the JavaScript regular expressions used by the bot

The command triggers, the compiled address clause and the markdown
conversion all work through JavaScript `RegExp`s.  `Rx` is the abstract
syntax of the fragment those patterns use; `mcap` enumerates the candidate
matches of a pattern at the head of a string, each with its named/numbered
capture groups and the remaining suffix, in exactly the ECMAScript
backtracking priority order (left alternative first, greedy repetition
longest-first).  A leading `^` (in patterns compiled without the `m` flag
it anchors to the start of the input) is a flag of `RxPattern` rather than
a node.  The star loop carries fuel to stay structurally recursive; as in
ECMAScript, a repetition iteration must consume at least one character, so
fuel `length + 1` never runs out. -/

/-- Abstract syntax of the used JavaScript regex fragment.  `cls`/`ncls`
are (negated) character classes; `group n` is capture group number `n`
(ECMAScript numbering by opening parenthesis; named groups also get a
number); `lookNeg` is negative lookahead; `eol` is `$` without the `m`
flag (end of input). -/
inductive Rx where
  | eps
  | lit (c : Char)
  | cls (cs : List Char)
  | ncls (cs : List Char)
  | cat (r1 r2 : Rx)
  | alt (r1 r2 : Rx)
  | star (r : Rx)
  | group (n : Nat) (r : Rx)
  | lookNeg (r : Rx)
  | eol
deriving DecidableEq, Repr

/-- Capture-group bindings of one match candidate; the head is the most
recent assignment of each group, looked up first. -/
abbrev Groups := List (Nat × List Char)

/-- The greedy Kleene-star loop: try one iteration of the body that
consumes at least one character and continue, and offer the empty
repetition last.  `m` is the matcher of the body. -/
def starLoop (m : List Char → Groups → List (Groups × List Char)) :
    Nat → List Char → Groups → List (Groups × List Char)
  | 0, s, g => [(g, s)]
  | fuel + 1, s, g =>
    (((m s g).filter (fun p => p.2.length < s.length)).flatMap
      (fun p => starLoop m fuel p.2 p.1)) ++ [(g, s)]

/-- All candidate matches of `r` at the head of `s` starting from group
bindings `g`: pairs of the resulting bindings and the remaining suffix, in
ECMAScript priority order (the head is the match `RegExp.exec` picks). -/
def mcap : Rx → List Char → Groups → List (Groups × List Char)
  | .eps, s, g => [(g, s)]
  | .lit c, s, g =>
    match s with
    | [] => []
    | c' :: t => if c' = c then [(g, t)] else []
  | .cls cs, s, g =>
    match s with
    | [] => []
    | c' :: t => if c' ∈ cs then [(g, t)] else []
  | .ncls cs, s, g =>
    match s with
    | [] => []
    | c' :: t => if c' ∈ cs then [] else [(g, t)]
  | .cat r1 r2, s, g => (mcap r1 s g).flatMap (fun p => mcap r2 p.2 p.1)
  | .alt r1 r2, s, g => mcap r1 s g ++ mcap r2 s g
  | .star r, s, g => starLoop (fun s' g' => mcap r s' g') (s.length + 1) s g
  | .group n r, s, g =>
    (mcap r s g).map (fun p => ((n, s.take (s.length - p.2.length)) :: p.1, p.2))
  | .lookNeg r, s, g => if (mcap r s g).isEmpty then [(g, s)] else []
  | .eol, s, g => if s.isEmpty then [(g, s)] else []

/-- A compiled pattern: its syntax, and whether the source regex began with
`^` (anchoring the match to position 0 of the input). -/
structure RxPattern where
  anchored : Bool
  rx : Rx
deriving DecidableEq, Repr

/-- `RegExp.prototype.test` / a non-null `exec`: an anchored pattern must
match at position 0, an unanchored one at some position of the input. -/
def rxTest (p : RxPattern) (s : List Char) : Bool :=
  if p.anchored then !(mcap p.rx s []).isEmpty
  else (List.range (s.length + 1)).any (fun i => !(mcap p.rx (s.drop i) []).isEmpty)

/-- The ASCII whitespace matched by `\s` (the JavaScript class also has
Unicode members, which none of the analysed strings contain). -/
def wsChars : List Char := [' ', '\t', '\n', '\r', '\x0b', '\x0c']

/-- The `\s` character class. -/
def ws : Rx := .cls wsChars

/-- The `.` metacharacter: any character but a line terminator. -/
def dot : Rx := .ncls ['\n', '\r', ' ', ' ']

/-- A literal string, character by character (the regex meaning of an
escaped interpolated fragment). -/
def litOf : List Char → Rx
  | [] => .eps
  | c :: cs => .cat (.lit c) (litOf cs)

/-- Greedy `r?`: try `r` first, the empty alternative second. -/
def ropt (r : Rx) : Rx := .alt r .eps

/-- `r+` as `r` then `r*`. -/
def rplus (r : Rx) : Rx := .cat r (.star r)

/-! ### The compiled address clause and command triggers

Source: `Command.getRegExp` (part_005, lines 130-140) and the command
group's trigger generator (`src/commands/commands.ts` lines 631-639).  Both
interpolate `EscapeRegex(await bot.getUserTag())` and
`EscapeRegex(channel.getPrefix())` — but the raw `bot.prefix` — into the
template

`^\s*((tag)|((chPrefix)(\s*tag)?)|((botPrefix)\s*(tag)))\s*`. -/

/-- The characters escaped by the `escape-string-regexp` package
(`/[|\\{}()[\]^$+*?.]/g` replaced by `'\\$&'`). -/
def escapeRegexChars : List Char :=
  ['|', '\\', '{', '}', '(', ')', '[', ']', '^', '$', '+', '*', '?', '.']

/-- `EscapeRegex`: prefix every regex metacharacter with a backslash. -/
def escapeStringRegexp (s : String) : String :=
  String.mk (s.data.flatMap (fun c =>
    if c ∈ escapeRegexChars then ['\\', c] else [c]))

/-- The address-clause source string exactly as the bot interpolates it:
the user tag and the channel prefix pass through `EscapeRegex`, the bot's
default prefix is inserted raw. -/
def addressClauseString (userTag channelPrefixStr botPrefix : String) : String :=
  "^\\s*((" ++ escapeStringRegexp userTag ++ ")|((" ++
    escapeStringRegexp channelPrefixStr ++ ")(\\s*" ++
    escapeStringRegexp userTag ++ ")?)|((" ++ botPrefix ++ ")\\s*(" ++
    escapeStringRegexp userTag ++ ")))\\s*"

/-- Modelled from the spec: the same clause with every literal component —
including the bot's default prefix — regex-escaped before interpolation,
as the spec demands of the trigger compiler. -/
def addressClauseStringSpec (userTag channelPrefixStr botPrefix : String) : String :=
  "^\\s*((" ++ escapeStringRegexp userTag ++ ")|((" ++
    escapeStringRegexp channelPrefixStr ++ ")(\\s*" ++
    escapeStringRegexp userTag ++ ")?)|((" ++ escapeStringRegexp botPrefix ++
    ")\\s*(" ++ escapeStringRegexp userTag ++ ")))\\s*"

/-- The syntax of the compiled address clause, for literal components: the
escaped tag and channel prefix always denote themselves; the raw default
prefix denotes itself whenever it contains no regex metacharacter.  Group
numbers follow ECMAScript numbering of the template's parentheses. -/
def addressClause (userTag channelPrefixStr botPrefix : List Char) : Rx :=
  .cat (.star ws)
    (.cat
      (.group 1 (.alt (.group 2 (litOf userTag))
        (.alt
          (.group 3 (.cat (.group 4 (litOf channelPrefixStr))
            (ropt (.group 5 (.cat (.star ws) (litOf userTag))))))
          (.group 6 (.cat (.group 7 (litOf botPrefix))
            (.cat (.star ws) (.group 8 (litOf userTag))))))))
      (.star ws))

/-- Whether the compiled address clause matches (a prefix of) the message
`s`; the clause is `^`-anchored. -/
def addressClauseMatches (userTag channelPrefixStr botPrefix s : List Char) : Bool :=
  !(mcap (addressClause userTag channelPrefixStr botPrefix) s []).isEmpty

/-- A command of the Telegram dispatch generation (`src/command.ts`,
part_005 second file): the regex source string `trigger` is modelled by its
syntax.  The handler callback is omitted: execution is modelled by
membership in the executed-command list. -/
structure Command where
  label : String
  description : String
  triggerLabel : String
  trigger : Rx
  permission : UserRole
  hasPrefix : Bool
deriving DecidableEq

/-- A channel as the trigger compiler sees it. -/
structure TgChannel where
  prefixStr : String
deriving DecidableEq, Repr

/-- `Command.getRegExp`: prepend the address clause when the command uses
the prefix (the concatenated source string keeps the clause's `^`);
otherwise the bare, unanchored trigger. -/
def commandRegExp (userTag defaultPrefixStr : String) (channel : TgChannel)
    (cmd : Command) : RxPattern :=
  if cmd.hasPrefix then
    { anchored := true
      rx := .cat (addressClause userTag.data channel.prefixStr.data
        defaultPrefixStr.data) cmd.trigger }
  else
    { anchored := false, rx := cmd.trigger }

/-- The Telegram dispatch of one inbound message under
`registerCommands` (part_005 lines 6-15) and `TelegramBot.registerCommand`
/ `onMessage` (part_001 lines 102-130): every command is registered as its
own `message` listener, and each listener executes its command iff the
command's regex matches the text — so the executed commands are exactly
the matching ones, in registration order. -/
def executedCommands (userTag defaultPrefixStr : String) (channel : TgChannel)
    (cmds : List Command) (text : String) : List Command :=
  cmds.filter (fun cmd =>
    rxTest (commandRegExp userTag defaultPrefixStr channel cmd) text.data)

/-- Exact-match semantics of the lookahead-free, anchor-free regex
fragment: `Matches r u` says `r` matches precisely the characters `u`.  A
star iteration is nonempty, as in ECMAScript. -/
inductive Matches : Rx → List Char → Prop where
  | eps : Matches .eps []
  | lit (c : Char) : Matches (.lit c) [c]
  | cls {c : Char} {cs : List Char} : c ∈ cs → Matches (.cls cs) [c]
  | ncls {c : Char} {cs : List Char} : c ∉ cs → Matches (.ncls cs) [c]
  | cat {r1 r2 : Rx} {u v : List Char} :
      Matches r1 u → Matches r2 v → Matches (.cat r1 r2) (u ++ v)
  | altL {r1 r2 : Rx} {u : List Char} : Matches r1 u → Matches (.alt r1 r2) u
  | altR {r1 r2 : Rx} {u : List Char} : Matches r2 u → Matches (.alt r1 r2) u
  | starNil {r : Rx} : Matches (.star r) []
  | starCons {r : Rx} {u v : List Char} :
      Matches r u → u ≠ [] → Matches (.star r) v → Matches (.star r) (u ++ v)
  | group {n : Nat} {r : Rx} {u : List Char} :
      Matches r u → Matches (.group n r) u

/-- The lookahead-free, anchor-free fragment, on which the matcher `mcap`
is characterised exactly by `Matches`. -/
def plainRx : Rx → Bool
  | .eps => true
  | .lit _ => true
  | .cls _ => true
  | .ncls _ => true
  | .cat r1 r2 => plainRx r1 && plainRx r2
  | .alt r1 r2 => plainRx r1 && plainRx r2
  | .star r => plainRx r
  | .group _ r => plainRx r
  | .lookNeg _ => false
  | .eol => false

/-- A first registered command, with trigger source `ping`; used to
instantiate the dispatch claims. -/
def cmdA : Command :=
  { label := "cmdA", description := "first command", triggerLabel := "ping",
    trigger := litOf "ping".data, permission := .USER, hasPrefix := true }

/-- A later registered command, with trigger source `p(.*)`, which matches
every text the `ping` trigger matches. -/
def cmdC : Command :=
  { label := "cmdC", description := "later command", triggerLabel := "p <rest>",
    trigger := .cat (.lit 'p') (.group 1 (.star dot)), permission := .USER,
    hasPrefix := true }

/-! ### The Telegram markdown conversion

Source: `TelegramBot.msgFromMarkdown` (part_001, lines 208-258): a chain of
global regex replacements, a line-break compression, a split into lines
with two per-line anchored replacements, and a rejoin that appends `\n`
after every line.  Replacement templates (`'[Image]($1) ([Link]($2))'`
etc.) are modelled as literal/group-reference part lists. -/

/-- One piece of a `String.prototype.replace` template: literal text or a
capture-group reference `$n`. -/
inductive ReplPart where
  | str (cs : List Char)
  | grp (n : Nat)
deriving DecidableEq, Repr

/-- Instantiate a replacement template with the groups of a match (an
unmatched group inserts the empty string, as in ECMAScript). -/
def applyRepl (g : Groups) : List ReplPart → List Char
  | [] => []
  | .str cs :: rest => cs ++ applyRepl g rest
  | .grp n :: rest => ((g.lookup n).getD []) ++ applyRepl g rest

/-- One global (`/g`) replace pass: scan left to right, at each position
take the matcher's first candidate, emit the instantiated template and
continue after the match (after an empty match, keep the current character
and advance by one, as ECMAScript does). -/
def scanReplace (rx : Rx) (tmpl : List ReplPart) : Nat → List Char → List Char
  | 0, s => s
  | _ + 1, [] =>
    match (mcap rx [] []).head? with
    | some (g, _) => applyRepl g tmpl
    | none => []
  | fuel + 1, c :: rest =>
    match (mcap rx (c :: rest) []).head? with
    | some (g, t) =>
      if t.length < rest.length + 1 then
        applyRepl g tmpl ++ scanReplace rx tmpl fuel t
      else
        applyRepl g tmpl ++ c :: scanReplace rx tmpl fuel rest
    | none => c :: scanReplace rx tmpl fuel rest

/-- `String.prototype.replace` with the `g` flag (for the unanchored
patterns of the conversion). -/
def jsReplaceAll (rx : Rx) (tmpl : List ReplPart) (s : List Char) : List Char :=
  scanReplace rx tmpl (s.length + 1) s

/-- `String.prototype.replace` without the `g` flag for a `^`-anchored
pattern: the only possible match is at position 0. -/
def jsReplaceFirstAnchored (rx : Rx) (tmpl : List ReplPart) (s : List Char) :
    List Char :=
  match (mcap rx s []).head? with
  | some (g, t) => applyRepl g tmpl ++ t
  | none => s

/-- `String.prototype.split('\n')`. -/
def splitNl : List Char → List (List Char)
  | [] => [[]]
  | c :: rest =>
    if c = '\n' then [] :: splitNl rest
    else
      match splitNl rest with
      | [] => [[c]]
      | line :: lines => (c :: line) :: lines

/-- Sequential concatenation of regex fragments. -/
def rxSeq : List Rx → Rx
  | [] => .eps
  | [r] => r
  | r :: rest => .cat r (rxSeq rest)

/-- `/\[\!\[\]\((.*)\)\]\((.*)\)/g` (nested image link without label). -/
def mdP1 : Rx := rxSeq [litOf "[![](".data, .group 1 (.star dot),
  litOf ")](".data, .group 2 (.star dot), litOf ")".data]

/-- `'[Image]($1) ([Link]($2))'`. -/
def mdT1 : List ReplPart := [.str "[Image](".data, .grp 1,
  .str ") ([Link](".data, .grp 2, .str "))".data]

/-- `/\[\!\[(.*)\]\((.*)\)\]\((.*)\)/g` (nested image link with label). -/
def mdP2 : Rx := rxSeq [litOf "[![".data, .group 1 (.star dot),
  litOf "](".data, .group 2 (.star dot), litOf ")](".data,
  .group 3 (.star dot), litOf ")".data]

/-- `'[$1]($2) ([Link]($3))'`. -/
def mdT2 : List ReplPart := [.str "[".data, .grp 1, .str "](".data, .grp 2,
  .str ") ([Link](".data, .grp 3, .str "))".data]

/-- `/\!\[\]\((.*)\)/g` (image without label). -/
def mdP3 : Rx := rxSeq [litOf "![](".data, .group 1 (.star dot),
  litOf ")".data]

/-- `'[Image]($1)'`. -/
def mdT3 : List ReplPart := [.str "[Image](".data, .grp 1, .str ")".data]

/-- `/\!\[(.*)\]\((.*)\)/g` (image with label). -/
def mdP4 : Rx := rxSeq [litOf "![".data, .group 1 (.star dot),
  litOf "](".data, .group 2 (.star dot), litOf ")".data]

/-- `'[$1]($2)'`. -/
def mdT4 : List ReplPart := [.str "[".data, .grp 1, .str "](".data, .grp 2,
  .str ")".data]

/-- `/\*(?!\*)(.+)(?!\*)\*/g` (italic). -/
def mdP5 : Rx := rxSeq [.lit '*', .lookNeg (.lit '*'), .group 1 (rplus dot),
  .lookNeg (.lit '*'), .lit '*']

/-- `'_$1_'`. -/
def mdT5 : List ReplPart := [.str "_".data, .grp 1, .str "_".data]

/-- `/__(.+)__/g` (bold, underscores). -/
def mdP6 : Rx := rxSeq [litOf "__".data, .group 1 (rplus dot),
  litOf "__".data]

/-- `/\*\*(.+)\*\*/g` (bold, asterisks). -/
def mdP7 : Rx := rxSeq [litOf "**".data, .group 1 (rplus dot),
  litOf "**".data]

/-- `'*$1*'`. -/
def mdT67 : List ReplPart := [.str "*".data, .grp 1, .str "*".data]

/-- `/\*(.*)[ \t]*\[(.*)\]\((.*)\)[ \t]*(.*)\*/g` (asterisk formatting
around a link). -/
def mdP8 : Rx := rxSeq [.lit '*', .group 1 (.star dot),
  .star (.cls [' ', '\t']), litOf "[".data, .group 2 (.star dot),
  litOf "](".data, .group 3 (.star dot), litOf ")".data,
  .star (.cls [' ', '\t']), .group 4 (.star dot), .lit '*']

/-- `'*$1* [$2]($3) *$4*'`. -/
def mdT8 : List ReplPart := [.str "*".data, .grp 1, .str "* [".data, .grp 2,
  .str "](".data, .grp 3, .str ") *".data, .grp 4, .str "*".data]

/-- `/__(.*)[ \t]*\[(.*)\]\((.*)\)[ \t]*(.*)__/g` (underscore formatting
around a link). -/
def mdP9 : Rx := rxSeq [litOf "__".data, .group 1 (.star dot),
  .star (.cls [' ', '\t']), litOf "[".data, .group 2 (.star dot),
  litOf "](".data, .group 3 (.star dot), litOf ")".data,
  .star (.cls [' ', '\t']), .group 4 (.star dot), litOf "__".data]

/-- `'__$1__ [$2]($3) __$4__'`. -/
def mdT9 : List ReplPart := [.str "__".data, .grp 1, .str "__ [".data,
  .grp 2, .str "](".data, .grp 3, .str ") __".data, .grp 4, .str "__".data]

/-- `/\[\*(.*)\*\]\((.*)\)/g` (italic inside a link label). -/
def mdP10 : Rx := rxSeq [litOf "[*".data, .group 1 (.star dot),
  litOf "*](".data, .group 2 (.star dot), litOf ")".data]

/-- `/\[__(.*)__\]\((.*)\)/g` (bold inside a link label). -/
def mdP11 : Rx := rxSeq [litOf "[__".data, .group 1 (.star dot),
  litOf "__](".data, .group 2 (.star dot), litOf ")".data]

/-- `/\*\[(.*)\]\((.*)\)\*/g` (asterisks around a link). -/
def mdP12 : Rx := rxSeq [litOf "*[".data, .group 1 (.star dot),
  litOf "](".data, .group 2 (.star dot), litOf ")*".data]

/-- `/__\[(.*)\]\((.*)\)__/g` (underscores around a link). -/
def mdP13 : Rx := rxSeq [litOf "__[".data, .group 1 (.star dot),
  litOf "](".data, .group 2 (.star dot), litOf ")__".data]

/-- `'[$1]($2)'` for the four link-formatting rules. -/
def mdTLink : List ReplPart := [.str "[".data, .grp 1, .str "](".data,
  .grp 2, .str ")".data]

/-- `/\*\*/g` (remove empty asterisk formatting). -/
def mdP14 : Rx := litOf "**".data

/-- `/____/g` (remove empty underscore formatting). -/
def mdP15 : Rx := litOf "____".data

/-- The empty replacement. -/
def mdTEmpty : List ReplPart := []

/-- `/\s*\n\s*\n\s*/g` (compress multiple line breaks). -/
def mdP16 : Rx := rxSeq [.star ws, .lit '\n', .star ws, .lit '\n', .star ws]

/-- `'\n\n'`. -/
def mdT16 : List ReplPart := [.str "\n\n".data]

/-- `/^\s*##?#?\s*(.*)/` (per line, H1-H6 headings; no `g` flag). -/
def mdPH : Rx := rxSeq [.star ws, .lit '#', ropt (.lit '#'), ropt (.lit '#'),
  .star ws, .group 1 (.star dot)]

/-- `'*$1*'` for headings. -/
def mdTH : List ReplPart := [.str "*".data, .grp 1, .str "*".data]

/-- `/^\s*\*\s+/` (per line, list bullets; no `g` flag). -/
def mdPList : Rx := rxSeq [.star ws, .lit '*', rplus ws]

/-- `'- '`. -/
def mdTList : List ReplPart := [.str "- ".data]

/-- The per-line pass: the heading rule, then the list rule (both
`^`-anchored, replace-first). -/
def mdLine (line : List Char) : List Char :=
  jsReplaceFirstAnchored mdPList mdTList
    (jsReplaceFirstAnchored mdPH mdTH line)

/-- Shallow embedding of `TelegramBot.msgFromMarkdown`: the falsy guard,
the fifteen global replacements, the line-break compression, the per-line
pass over `split('\n')`, and the rejoin appending `\n` after every line. -/
def msgFromMarkdown (markdownText : String) : String :=
  if markdownText = "" then ""
  else
    let s1 := jsReplaceAll mdP1 mdT1 markdownText.data
    let s2 := jsReplaceAll mdP2 mdT2 s1
    let s3 := jsReplaceAll mdP3 mdT3 s2
    let s4 := jsReplaceAll mdP4 mdT4 s3
    let s5 := jsReplaceAll mdP5 mdT5 s4
    let s6 := jsReplaceAll mdP6 mdT67 s5
    let s7 := jsReplaceAll mdP7 mdT67 s6
    let s8 := jsReplaceAll mdP8 mdT8 s7
    let s9 := jsReplaceAll mdP9 mdT9 s8
    let s10 := jsReplaceAll mdP10 mdTLink s9
    let s11 := jsReplaceAll mdP11 mdTLink s10
    let s12 := jsReplaceAll mdP12 mdTLink s11
    let s13 := jsReplaceAll mdP13 mdTLink s12
    let s14 := jsReplaceAll mdP14 mdTEmpty s13
    let s15 := jsReplaceAll mdP15 mdTEmpty s14
    let s16 := jsReplaceAll mdP16 mdT16 s15
    let lines := (splitNl s16).map mdLine
    String.mk (lines.flatMap (fun line => line ++ ['\n']))

/-- The characters outside of which a text is inert for the conversion:
every replacement pattern needs a bracket, `!`, `*`, `_`, `#`, or (twice)
a line break. -/
def mdSpecialChars : List Char := ['[', '!', '*', '_', '#', '\n']

/-- The guaranteed number of occurrences of `c` in any match of `r`:
a lower bound counted from the mandatory literals. -/
def minCount (c : Char) : Rx → Nat
  | .eps => 0
  | .lit c' => if c' = c then 1 else 0
  | .cls _ => 0
  | .ncls _ => 0
  | .cat r1 r2 => minCount c r1 + minCount c r2
  | .alt r1 r2 => min (minCount c r1) (minCount c r2)
  | .star _ => 0
  | .group _ r => minCount c r
  | .lookNeg _ => 0
  | .eol => 0

end ValveBot

namespace ValveBot

/-! ## Claims C1 and C4 -/

/-- **C1**: `resolveRole` (Telegram `getUserPermission`) follows the
ordered, short-circuiting algorithm: channel-post placeholder id gives
ADMIN; otherwise a configured owner id gives OWNER (regardless of the
platform's admin report); otherwise `all_members_are_administrators` or a
private conversation gives ADMIN; otherwise membership in the platform's
administrator list gives ADMIN; otherwise USER.  Stated as a refinement:
when both remote calls succeed, the implementation agrees with the
spec-side algorithm `resolveRoleSpec`. -/
theorem getUserPermission_follows_ordered_algorithm
    (env : TelegramEnv) (chat : TelegramChat) (adminIds : List String)
    (hchat : env.getChat = .ok chat)
    (hadmins : env.getChatAdministrators = .ok (some adminIds)) :
    getUserPermission env =
      resolveRoleSpec env.userId env.ownerIds chat adminIds := by
  unfold getUserPermission resolveRoleSpec
  rw [hchat, hadmins]
  rfl

/-- Witness for C1: a concrete environment in which the user is a
configured owner but not a platform admin; the resolver returns OWNER as
the algorithm dictates. -/
theorem getUserPermission_follows_ordered_algorithm_witness :
    getUserPermission
        { userId := "42", ownerIds := ["42"],
          getChat := .ok { all_members_are_administrators := false, type := "group" },
          getChatAdministrators := .ok (some ["7"]) } =
      resolveRoleSpec "42" ["42"]
        { all_members_are_administrators := false, type := "group" } ["7"] :=
  getUserPermission_follows_ordered_algorithm
    { userId := "42", ownerIds := ["42"],
      getChat := .ok { all_members_are_administrators := false, type := "group" },
      getChatAdministrators := .ok (some ["7"]) }
    { all_members_are_administrators := false, type := "group" } ["7"]
    rfl rfl

/-- **C4, counterexample**: the claim that a remote failure at step 3 makes
the resolution "fall through to the next check" is false.  In the source,
the single `try`/`catch` wrapping the whole method means a failing
`getChat` skips the administrator-list check entirely: with a failing
`getChat` and a user who is on the administrator list, the code returns
USER while the claimed fall-through semantics would return ADMIN. -/
theorem getUserPermission_no_fallthrough_counterexample :
    getUserPermission
        { userId := "7", ownerIds := [], getChat := .error (),
          getChatAdministrators := .ok (some ["7"]) } = UserRole.USER ∧
    resolveRoleFallthrough
        { userId := "7", ownerIds := [], getChat := .error (),
          getChatAdministrators := .ok (some ["7"]) } = UserRole.ADMIN := by
  constructor <;> rfl

/-- **C4, amended**: `resolveRole` never throws (it is a total function of
the call outcomes); any remote-call failure at step 3 or step 4 is caught,
and the resolution then returns the under-granted role USER directly,
skipping the remaining checks, rather than propagating the error. -/
theorem getUserPermission_failure_returns_USER
    (env : TelegramEnv)
    (hid : env.userId ≠ channelAuthorID)
    (howner : env.ownerIds.contains env.userId = false) :
    (env.getChat = .error () → getUserPermission env = UserRole.USER) ∧
    (∀ chat : TelegramChat, env.getChat = .ok chat →
      (chat.all_members_are_administrators || chat.type = "private") = false →
      env.getChatAdministrators = .error () →
      getUserPermission env = UserRole.USER) := by
  have hmem : env.userId ∉ env.ownerIds := by simpa using howner
  constructor
  · intro hchat
    unfold getUserPermission
    rw [if_neg hid, hchat]
    simp [hmem]
  · intro chat hchat hflags hadmins
    unfold getUserPermission
    rw [if_neg hid, hchat, hadmins]
    simp [hmem, hflags]

/-- Witness for the amended C4: at a concrete environment whose `getChat`
call fails, the resolver returns USER. -/
theorem getUserPermission_failure_returns_USER_witness :
    getUserPermission
        { userId := "7", ownerIds := ["9"], getChat := .error (),
          getChatAdministrators := .ok (some ["7"]) } = UserRole.USER :=
  (getUserPermission_failure_returns_USER
    { userId := "7", ownerIds := ["9"], getChat := .error (),
      getChatAdministrators := .ok (some ["7"]) }
    (by decide) (by decide)).1 rfl

/-! ## Claims C5 and C8 -/

/-- **C5**: subscribing the same channel to the same game twice: the first
`addSubscriber` call returns `true` and appends the channel once to the
persisted slot, the second call returns `false`, and afterwards the
persisted slot contains exactly one entry for the channel. -/
theorem addSubscriber_twice_no_duplicates
    (gameSubs : List String) (channelId : String)
    (h : gameSubs.any (fun sub => channelIsEqual channelId sub) = false) :
    let r1 := addSubscriber gameSubs channelId
    let r2 := addSubscriber r1.gameSubs channelId
    r1.returned = true ∧
    r1.gameSubs = gameSubs ++ [channelId] ∧
    r2.returned = false ∧
    r2.gameSubs = r1.gameSubs ∧
    r2.gameSubs.count channelId = 1 := by
  have hnotmem : ¬ channelId ∈ gameSubs := by
    intro hmem
    have : gameSubs.any (fun sub => channelIsEqual channelId sub) = true := by
      rw [List.any_eq_true]
      exact ⟨channelId, hmem, by simp [channelIsEqual]⟩
    rw [h] at this
    exact Bool.false_ne_true this
  have happend : (gameSubs ++ [channelId]).any
      (fun sub => channelIsEqual channelId sub) = true := by
    rw [List.any_eq_true]
    exact ⟨channelId, by simp, by simp [channelIsEqual]⟩
  refine ⟨?_, ?_, ?_, ?_, ?_⟩
  · simp [addSubscriber, h]
  · simp [addSubscriber, h]
  · simp [addSubscriber, h, happend]
  · simp [addSubscriber, h, happend]
  · simp [addSubscriber, h, happend, List.count_append,
      List.count_eq_zero_of_not_mem hnotmem, List.count_singleton]

/-- Witness for C5 at a concrete state: channel "c1" not yet subscribed. -/
theorem addSubscriber_twice_no_duplicates_witness :
    (["c0"].any (fun sub => channelIsEqual "c1" sub) = false) ∧
    ((addSubscriber ["c0"] "c1").returned = true ∧
      (addSubscriber ["c0"] "c1").gameSubs = ["c0"] ++ ["c1"] ∧
      (addSubscriber (addSubscriber ["c0"] "c1").gameSubs "c1").returned = false ∧
      (addSubscriber (addSubscriber ["c0"] "c1").gameSubs "c1").gameSubs =
        (addSubscriber ["c0"] "c1").gameSubs ∧
      (addSubscriber (addSubscriber ["c0"] "c1").gameSubs "c1").gameSubs.count "c1" = 1) :=
  ⟨by decide, addSubscriber_twice_no_duplicates ["c0"] "c1" (by decide)⟩

/-- **C8**: unsubscribing a channel from a game it was never subscribed to
returns `false` and performs no write: the persisted slot is returned
unchanged and `setSubscribers` is not called. -/
theorem removeSubscriber_never_subscribed_no_write
    (gameSubs : List String) (channelId : String)
    (h : gameSubs.any (fun sub => channelIsEqual channelId sub) = false) :
    removeSubscriber gameSubs channelId =
      { returned := false, gameSubs := gameSubs, wrote := false } := by
  simp [removeSubscriber, h]

/-- Witness for C8 at a concrete state. -/
theorem removeSubscriber_never_subscribed_no_write_witness :
    (["c0", "c2"].any (fun sub => channelIsEqual "c1" sub) = false) ∧
    removeSubscriber ["c0", "c2"] "c1" =
      { returned := false, gameSubs := ["c0", "c2"], wrote := false } :=
  ⟨by decide, removeSubscriber_never_subscribed_no_write ["c0", "c2"] "c1" (by decide)⟩

/-! ## Claim C6 -/

/-- On a reset (the new prefix is the bot default), an existing record for
the channel that has no game subscriptions is removed, and with at most one
record per channel no record for the channel survives. -/
theorem updateChannels_reset_removes_empty (channelId defaultPrefixStr : String)
    (channels : List Subscriber)
    (huniq : (channels.map Subscriber.id).Nodup)
    (e : Subscriber) (he : e ∈ channels) (hid : channelId = e.id)
    (hsubs : e.gameSubs = []) :
    ∀ e' ∈ updateChannels channelId defaultPrefixStr defaultPrefixStr channels,
      channelId ≠ e'.id := by
  induction channels with
  | nil => simp at he
  | cons sub rest ih =>
    have hnodup := List.nodup_cons.mp huniq
    rcases List.mem_cons.mp he with rfl | hmem
    · intro e' he'
      have hcond : channelIsEqual channelId e.id = true := by
        simp [channelIsEqual, hid]
      simp only [updateChannels, hcond, if_true] at he'
      rw [if_pos (by simp [hsubs])] at he'
      intro heq
      exact hnodup.1 (hid ▸ heq ▸ List.mem_map_of_mem Subscriber.id he')
    · have hne : channelId ≠ sub.id := by
        intro heq
        apply hnodup.1
        rw [heq] at hid
        exact hid ▸ List.mem_map_of_mem Subscriber.id hmem
      have hcond : channelIsEqual channelId sub.id = false := by
        simp [channelIsEqual, hne]
      intro e' he'
      simp only [updateChannels, hcond, Bool.false_eq_true, if_false] at he'
      rcases List.mem_cons.mp he' with rfl | hmem'
      · exact hne
      · exact ih hnodup.2 hmem e' hmem'

/-- On a reset, no record for the channel that has neither game
subscriptions nor a stored prefix survives in the updated list. -/
theorem updateChannels_reset_no_empty_entry (channelId defaultPrefixStr : String)
    (channels : List Subscriber)
    (hdef : defaultPrefixStr ≠ "")
    (huniq : (channels.map Subscriber.id).Nodup) :
    ∀ e' ∈ updateChannels channelId defaultPrefixStr defaultPrefixStr channels,
      channelId = e'.id → ¬(e'.gameSubs = [] ∧ e'.prefixStr = "") := by
  induction channels with
  | nil =>
    intro e' he'
    simp only [updateChannels, List.mem_singleton] at he'
    subst he'
    exact fun _ h => hdef h.2
  | cons sub rest ih =>
    have hnodup := List.nodup_cons.mp huniq
    intro e' he' hid'
    by_cases hsame : channelId = sub.id
    · have hcond : channelIsEqual channelId sub.id = true := by
        simp [channelIsEqual, hsame]
      simp only [updateChannels, hcond, if_true] at he'
      simp only [ne_eq, not_true_eq_false, if_false] at he'
      by_cases hlen : sub.gameSubs.length = 0
      · rw [if_pos (by simp [hlen])] at he'
        exact absurd (hsame ▸ hid' ▸ List.mem_map_of_mem Subscriber.id he')
          hnodup.1
      · rw [if_neg (by simp [hlen])] at he'
        rcases List.mem_cons.mp he' with rfl | hmem'
        · intro hcontra
          have hsubs : sub.gameSubs = [] := hcontra.1
          rw [hsubs] at hlen
          exact hlen rfl
        · exact absurd (hsame ▸ hid' ▸ List.mem_map_of_mem Subscriber.id hmem')
            hnodup.1
    · have hcond : channelIsEqual channelId sub.id = false := by
        simp [channelIsEqual, hsame]
      simp only [updateChannels, hcond, Bool.false_eq_true, if_false] at he'
      rcases List.mem_cons.mp he' with rfl | hmem'
      · exact absurd hid' hsame
      · exact ih hnodup.2 e' hmem' hid'

/-- **C6**: after `prefix reset` on a writable channel, the channel's
effective prefix equals the bot's configured default; an existing persisted
record that then has no game subscriptions (its stored prefix having been
cleared by the reset) is removed entirely; and no persisted record for the
channel with neither game subscriptions nor a stored prefix remains (empty
entries are pruned).  The uniqueness hypothesis reflects that the store
keeps at most one record per channel (`findIndex` updates the first). -/
theorem prefixCmd_reset_prunes_empty_entry
    (defaultPrefixStr channelId channelPrefix0 : String)
    (channels : List Subscriber)
    (hdef : defaultPrefixStr ≠ "")
    (huniq : (channels.map Subscriber.id).Nodup) :
    (prefixCmd defaultPrefixStr channelId channelPrefix0 "reset" true channels).channelPrefixStr
        = defaultPrefixStr ∧
    (∀ e ∈ channels, channelId = e.id → e.gameSubs = [] →
      ∀ e' ∈ (prefixCmd defaultPrefixStr channelId channelPrefix0 "reset" true
          channels).channels,
        channelId ≠ e'.id) ∧
    (∀ e' ∈ (prefixCmd defaultPrefixStr channelId channelPrefix0 "reset" true
        channels).channels,
      channelId = e'.id → ¬(e'.gameSubs = [] ∧ e'.prefixStr = "")) := by
  have htrim : jsTrim "reset" = "reset" := by decide
  have hchannels :
      (prefixCmd defaultPrefixStr channelId channelPrefix0 "reset" true
        channels).channels =
        updateChannels channelId defaultPrefixStr defaultPrefixStr channels := by
    simp [prefixCmd, htrim]
  refine ⟨by simp [prefixCmd, htrim], ?_, ?_⟩
  · intro e he hid hsubs
    rw [hchannels]
    exact updateChannels_reset_removes_empty channelId defaultPrefixStr channels
      huniq e he hid hsubs
  · rw [hchannels]
    exact updateChannels_reset_no_empty_entry channelId defaultPrefixStr channels
      hdef huniq

/-- Witness for C6: channel "c" has a record with a custom prefix "!" and
no subscriptions; after `prefix reset` its record is gone and its effective
prefix is the default "/". -/
theorem prefixCmd_reset_prunes_empty_entry_witness :
    ( ("/" : String) ≠ "" ∧
      ((([{ gameSubs := [], id := "c", prefixStr := "!" }] :
          List Subscriber).map Subscriber.id).Nodup) ) ∧
    ((prefixCmd "/" "c" "!" "reset" true
        [{ gameSubs := [], id := "c", prefixStr := "!" }]).channelPrefixStr = "/" ∧
    (∀ e ∈ ([{ gameSubs := [], id := "c", prefixStr := "!" }] : List Subscriber),
      "c" = e.id → e.gameSubs = [] →
      ∀ e' ∈ (prefixCmd "/" "c" "!" "reset" true
          [{ gameSubs := [], id := "c", prefixStr := "!" }]).channels,
        "c" ≠ e'.id) ∧
    (∀ e' ∈ (prefixCmd "/" "c" "!" "reset" true
        [{ gameSubs := [], id := "c", prefixStr := "!" }]).channels,
      "c" = e'.id → ¬(e'.gameSubs = [] ∧ e'.prefixStr = ""))) :=
  ⟨⟨by decide, by decide⟩,
    prefixCmd_reset_prunes_empty_entry "/" "c" "!"
      [{ gameSubs := [], id := "c", prefixStr := "!" }] (by decide) (by decide)⟩

/-! ## Claim C10 -/

/-- **C10**: when the bot cannot write to the channel during a `prefix`
invocation with a non-empty argument, the handler removes the channel's
stored data and returns at once: the persisted list loses exactly the
channel's entries, nothing is announced, the handler persists no prefix
change, and the channel's in-memory prefix is untouched. -/
theorem prefixCmd_cannot_write_removes_data
    (defaultPrefixStr channelId channelPrefix0 arg : String)
    (channels : List Subscriber)
    (harg : jsTrim arg ≠ "") :
    prefixCmd defaultPrefixStr channelId channelPrefix0 arg false channels =
      { channelPrefixStr := channelPrefix0,
        channels := channels.filter (fun e => !(channelIsEqual channelId e.id)),
        announced := false, savedData := false, removedData := true } := by
  simp [prefixCmd, harg, removeData]

/-- Witness for C10 at a concrete state: argument "!" on a non-writable
channel drops the channel's record and changes nothing else. -/
theorem prefixCmd_cannot_write_removes_data_witness :
    (jsTrim "!" ≠ "") ∧
    prefixCmd "/" "c" "/" "!" false
        [{ gameSubs := ["dota"], id := "c", prefixStr := "" },
         { gameSubs := [], id := "d", prefixStr := "!" }] =
      { channelPrefixStr := "/",
        channels := ([{ gameSubs := ["dota"], id := "c", prefixStr := "" },
            { gameSubs := [], id := "d", prefixStr := "!" }] :
            List Subscriber).filter (fun e => !(channelIsEqual "c" e.id)),
        announced := false, savedData := false, removedData := true } :=
  ⟨by decide,
    prefixCmd_cannot_write_removes_data "/" "c" "/" "!"
      [{ gameSubs := ["dota"], id := "c", prefixStr := "" },
       { gameSubs := [], id := "d", prefixStr := "!" }] (by decide)⟩

/-! ## Claim C7 -/

/-- **C7**: help rendering is role-gated: for every caller role the help
generator lists, in declaration order, exactly the commands whose required
role is satisfied by the caller's role under USER < ADMIN < OWNER; a
USER-role caller never sees the OWNER-only `notifyAll` command, and an
OWNER-role caller sees every registered command. -/
theorem channelHelpLabels_role_gated (role : UserRole) :
    channelHelpLabels commandsList role =
      (commandsList.filter (fun cmd => satisfies role cmd.role)).map
        (fun cmd => cmd.label) ∧
    "notifyAll" ∉ channelHelpLabels commandsList UserRole.USER ∧
    channelHelpLabels commandsList UserRole.OWNER =
      commandsList.map (fun cmd => cmd.label) := by
  refine ⟨?_, by decide, by decide⟩
  have hvis : ∀ cmd : BotCommand, cmdVisible role cmd = satisfies role cmd.role := by
    intro cmd
    cases role <;> cases hr : cmd.role <;>
      simp [cmdVisible, satisfies, UserRole.ord, hr]
  unfold channelHelpLabels
  rw [List.filter_congr (fun cmd _ => hvis cmd)]

end ValveBot


namespace ValveBot

/-! ## Exact characterisation of the matcher on the plain fragment -/

theorem matches_eps_iff {u : List Char} : Matches .eps u ↔ u = [] := by
  constructor
  · intro h; cases h; rfl
  · rintro rfl; exact Matches.eps

theorem matches_lit_iff {c : Char} {u : List Char} :
    Matches (.lit c) u ↔ u = [c] := by
  constructor
  · intro h; cases h; rfl
  · rintro rfl; exact Matches.lit c

theorem matches_cls_iff {cs : List Char} {u : List Char} :
    Matches (.cls cs) u ↔ ∃ c, c ∈ cs ∧ u = [c] := by
  constructor
  · intro h; cases h with | cls hc => exact ⟨_, hc, rfl⟩
  · rintro ⟨c, hc, rfl⟩; exact Matches.cls hc

theorem matches_ncls_iff {cs : List Char} {u : List Char} :
    Matches (.ncls cs) u ↔ ∃ c, c ∉ cs ∧ u = [c] := by
  constructor
  · intro h; cases h with | ncls hc => exact ⟨_, hc, rfl⟩
  · rintro ⟨c, hc, rfl⟩; exact Matches.ncls hc

theorem matches_cat_iff {r1 r2 : Rx} {u : List Char} :
    Matches (.cat r1 r2) u ↔
      ∃ u1 u2, u = u1 ++ u2 ∧ Matches r1 u1 ∧ Matches r2 u2 := by
  constructor
  · intro h; cases h with | cat h1 h2 => exact ⟨_, _, rfl, h1, h2⟩
  · rintro ⟨u1, u2, rfl, h1, h2⟩; exact Matches.cat h1 h2

theorem matches_alt_iff {r1 r2 : Rx} {u : List Char} :
    Matches (.alt r1 r2) u ↔ Matches r1 u ∨ Matches r2 u := by
  constructor
  · intro h
    cases h with
    | altL h1 => exact Or.inl h1
    | altR h2 => exact Or.inr h2
  · rintro (h | h)
    · exact Matches.altL h
    · exact Matches.altR h

theorem matches_group_iff {n : Nat} {r : Rx} {u : List Char} :
    Matches (.group n r) u ↔ Matches r u := by
  constructor
  · intro h; cases h with | group h => exact h
  · exact Matches.group

/-- The star loop agrees with `Matches` on the star, provided the body
matcher does and the fuel exceeds the length of the input. -/
theorem mem_starLoop_iff (r : Rx)
    (ihr : ∀ s g t, (∃ g', (g', t) ∈ mcap r s g) ↔
      ∃ u, s = u ++ t ∧ Matches r u) :
    ∀ fuel (s : List Char) (g : Groups) (t : List Char), s.length < fuel →
      ((∃ g', (g', t) ∈ starLoop (fun s' g' => mcap r s' g') fuel s g) ↔
        ∃ u, s = u ++ t ∧ Matches (.star r) u) := by
  intro fuel
  induction fuel with
  | zero => intro s g t h; exact absurd h (Nat.not_lt_zero _)
  | succ n ihf =>
    intro s g t hlt
    constructor
    · rintro ⟨g', hg'⟩
      simp only [starLoop, List.mem_append, List.mem_flatMap, List.mem_filter,
        List.mem_singleton, Prod.mk.injEq] at hg'
      rcases hg' with ⟨⟨g1, m⟩, ⟨hmem, hlen⟩, hrest⟩ | ⟨rfl, rfl⟩
      · simp only [decide_eq_true_eq] at hlen
        obtain ⟨u1, hs1, hm1⟩ := (ihr s g m).mp ⟨g1, hmem⟩
        have hmn : m.length < n := by
          have : s.length ≤ n := Nat.lt_succ_iff.mp hlt
          omega
        obtain ⟨u2, hs2, hm2⟩ := (ihf m g1 t hmn).mp ⟨g', hrest⟩
        have hne : u1 ≠ [] := by
          rintro rfl
          rw [List.nil_append] at hs1
          rw [hs1] at hlen
          exact Nat.lt_irrefl _ hlen
        refine ⟨u1 ++ u2, ?_, Matches.starCons hm1 hne hm2⟩
        rw [hs1, hs2, List.append_assoc]
      · exact ⟨[], rfl, Matches.starNil⟩
    · rintro ⟨u, hs, hm⟩
      cases hm with
      | starNil =>
        rw [List.nil_append] at hs
        subst hs
        refine ⟨g, ?_⟩
        simp [starLoop]
      | @starCons _ u1 v hm1 hne hm2 =>
        obtain ⟨g1, hg1⟩ := (ihr s g (v ++ t)).mpr
          ⟨u1, by rw [hs, List.append_assoc], hm1⟩
        have hlen : (v ++ t).length < s.length := by
          rw [hs]
          simp only [List.length_append]
          cases u1 with
          | nil => exact absurd rfl hne
          | cons c cs => simp [Nat.lt_succ_iff]
        have hvn : (v ++ t).length < n := by
          have : s.length ≤ n := Nat.lt_succ_iff.mp hlt
          omega
        obtain ⟨g', hg'⟩ := (ihf (v ++ t) g1 t hvn).mpr ⟨v, rfl, hm2⟩
        refine ⟨g', ?_⟩
        simp only [starLoop, List.mem_append, List.mem_flatMap, List.mem_filter]
        exact Or.inl ⟨(g1, v ++ t), ⟨hg1, by simpa using hlen⟩, hg'⟩

/-- On the plain fragment, the candidate matches of `mcap` are exactly the
decompositions `s = u ++ t` with `Matches r u`: the matcher is sound and
complete for the exact-match semantics. -/
theorem mcap_iff_matches : ∀ (r : Rx), plainRx r = true →
    ∀ (s : List Char) (g : Groups) (t : List Char),
      (∃ g', (g', t) ∈ mcap r s g) ↔ ∃ u, s = u ++ t ∧ Matches r u := by
  intro r
  induction r with
  | eps =>
    intro _ s g t
    simp [mcap, matches_eps_iff, eq_comm]
  | lit c =>
    intro _ s g t
    cases s with
    | nil => simp [mcap, matches_lit_iff]
    | cons c' t' =>
      by_cases hc : c' = c
      · subst hc
        simp [mcap, matches_lit_iff, eq_comm]
      · simp [mcap, hc, matches_lit_iff]
  | cls cs =>
    intro _ s g t
    cases s with
    | nil => simp [mcap, matches_cls_iff]
    | cons c' t' =>
      by_cases hc : c' ∈ cs
      · simp only [mcap, if_pos hc, List.mem_singleton, Prod.mk.injEq,
          matches_cls_iff]
        constructor
        · rintro ⟨g', rfl, rfl⟩
          exact ⟨[c'], rfl, c', hc, rfl⟩
        · rintro ⟨u, hsplit, c, hmem, rfl⟩
          obtain ⟨rfl, rfl⟩ : c' = c ∧ t' = t := by
            simpa using hsplit
          exact ⟨g, rfl, rfl⟩
      · simp only [mcap, if_neg hc, List.not_mem_nil, exists_false,
          false_iff, matches_cls_iff, not_exists]
        rintro u ⟨hsplit, c, hmem, rfl⟩
        obtain ⟨rfl, rfl⟩ : c' = c ∧ t' = t := by simpa using hsplit
        exact hc hmem
  | ncls cs =>
    intro _ s g t
    cases s with
    | nil => simp [mcap, matches_ncls_iff]
    | cons c' t' =>
      by_cases hc : c' ∈ cs
      · simp only [mcap, if_pos hc, List.not_mem_nil, exists_false,
          false_iff, matches_ncls_iff, not_exists]
        rintro u ⟨hsplit, c, hmem, rfl⟩
        obtain ⟨rfl, rfl⟩ : c' = c ∧ t' = t := by simpa using hsplit
        exact hmem hc
      · simp only [mcap, if_neg hc, List.mem_singleton, Prod.mk.injEq,
          matches_ncls_iff]
        constructor
        · rintro ⟨g', rfl, rfl⟩
          exact ⟨[c'], rfl, c', hc, rfl⟩
        · rintro ⟨u, hsplit, c, hmem, rfl⟩
          obtain ⟨rfl, rfl⟩ : c' = c ∧ t' = t := by simpa using hsplit
          exact ⟨g, rfl, rfl⟩
  | cat r1 r2 ih1 ih2 =>
    intro hp s g t
    have hp12 := hp
    rw [plainRx, Bool.and_eq_true] at hp12
    constructor
    · rintro ⟨g', hg'⟩
      simp only [mcap, List.mem_flatMap] at hg'
      obtain ⟨⟨g1, m⟩, hmem1, hmem2⟩ := hg'
      obtain ⟨u1, hs1, hm1⟩ := (ih1 hp12.1 s g m).mp ⟨g1, hmem1⟩
      obtain ⟨u2, hs2, hm2⟩ := (ih2 hp12.2 m g1 t).mp ⟨g', hmem2⟩
      refine ⟨u1 ++ u2, ?_, Matches.cat hm1 hm2⟩
      rw [hs1, hs2, List.append_assoc]
    · rintro ⟨u, hs, hm⟩
      rcases matches_cat_iff.mp hm with ⟨u1, u2, rfl, hm1, hm2⟩
      obtain ⟨g1, hg1⟩ := (ih1 hp12.1 s g (u2 ++ t)).mpr
        ⟨u1, by rw [hs, List.append_assoc], hm1⟩
      obtain ⟨g', hg'⟩ := (ih2 hp12.2 (u2 ++ t) g1 t).mpr ⟨u2, rfl, hm2⟩
      refine ⟨g', ?_⟩
      simp only [mcap, List.mem_flatMap]
      exact ⟨(g1, u2 ++ t), hg1, hg'⟩
  | alt r1 r2 ih1 ih2 =>
    intro hp s g t
    have hp12 := hp
    rw [plainRx, Bool.and_eq_true] at hp12
    simp only [mcap, List.mem_append, matches_alt_iff]
    constructor
    · rintro ⟨g', hg' | hg'⟩
      · obtain ⟨u, hs, hm⟩ := (ih1 hp12.1 s g t).mp ⟨g', hg'⟩
        exact ⟨u, hs, Or.inl hm⟩
      · obtain ⟨u, hs, hm⟩ := (ih2 hp12.2 s g t).mp ⟨g', hg'⟩
        exact ⟨u, hs, Or.inr hm⟩
    · rintro ⟨u, hs, hm | hm⟩
      · obtain ⟨g', hg'⟩ := (ih1 hp12.1 s g t).mpr ⟨u, hs, hm⟩
        exact ⟨g', Or.inl hg'⟩
      · obtain ⟨g', hg'⟩ := (ih2 hp12.2 s g t).mpr ⟨u, hs, hm⟩
        exact ⟨g', Or.inr hg'⟩
  | star r ih =>
    intro hp s g t
    have hpr : plainRx r = true := by rwa [plainRx] at hp
    have := mem_starLoop_iff r (ih hpr) (s.length + 1) s g t (Nat.lt_succ_self _)
    simpa [mcap] using this
  | group n r ih =>
    intro hp s g t
    have hpr : plainRx r = true := by rwa [plainRx] at hp
    constructor
    · rintro ⟨g'', hg''⟩
      simp only [mcap, List.mem_map, Prod.mk.injEq] at hg''
      obtain ⟨⟨g1, m⟩, hmem, _, ht⟩ := hg''
      obtain ⟨u, hs, hm⟩ := (ih hpr s g t).mp ⟨g1, ht ▸ hmem⟩
      exact ⟨u, hs, Matches.group hm⟩
    · rintro ⟨u, hs, hm⟩
      obtain ⟨g1, hg1⟩ := (ih hpr s g t).mpr ⟨u, hs, matches_group_iff.mp hm⟩
      refine ⟨(n, s.take (s.length - t.length)) :: g1, ?_⟩
      simp only [mcap, List.mem_map, Prod.mk.injEq]
      exact ⟨(g1, t), hg1, rfl, rfl⟩
  | lookNeg r ih =>
    intro hp
    rw [plainRx] at hp
    exact absurd hp (by simp)
  | eol =>
    intro hp
    rw [plainRx] at hp
    exact absurd hp (by simp)

end ValveBot

namespace ValveBot

theorem matches_litOf {w u : List Char} : Matches (litOf w) u ↔ u = w := by
  induction w generalizing u with
  | nil => simp [litOf, matches_eps_iff]
  | cons c cs ih =>
    simp only [litOf, matches_cat_iff, matches_lit_iff]
    constructor
    · rintro ⟨u1, u2, rfl, rfl, h2⟩
      rw [ih.mp h2]
      rfl
    · rintro rfl
      exact ⟨[c], cs, rfl, rfl, ih.mpr rfl⟩

theorem matches_star_cls_forall {r : Rx} {u : List Char} (h : Matches r u) :
    ∀ cs : List Char, r = .star (.cls cs) → ∀ c ∈ u, c ∈ cs := by
  induction h with
  | eps => intro cs hcs; cases hcs
  | lit c => intro cs hcs; cases hcs
  | cls _ => intro cs hcs; cases hcs
  | ncls _ => intro cs hcs; cases hcs
  | cat _ _ => intro cs hcs; cases hcs
  | altL _ => intro cs hcs; cases hcs
  | altR _ => intro cs hcs; cases hcs
  | group _ => intro cs hcs; cases hcs
  | starNil => intro cs _ c hc; exact absurd hc (List.not_mem_nil c)
  | starCons h1 _ _ _ ih2 =>
    intro cs hcs c hc
    cases hcs
    rcases List.mem_append.mp hc with hcu | hcv
    · obtain ⟨c0, hc0, rfl⟩ := matches_cls_iff.mp h1
      rw [List.mem_singleton.mp hcu]
      exact hc0
    · exact ih2 cs rfl c hcv

theorem matches_star_cls {cs u : List Char} :
    Matches (.star (.cls cs)) u ↔ ∀ c ∈ u, c ∈ cs := by
  constructor
  · intro h
    exact matches_star_cls_forall h cs rfl
  · intro h
    induction u with
    | nil => exact Matches.starNil
    | cons c u' ih =>
      have : Matches (.star (.cls cs)) ([c] ++ u') :=
        Matches.starCons (Matches.cls (h c (by simp))) (by simp)
          (ih (fun c' hc' => h c' (by simp [hc'])))
      simpa using this

theorem plainRx_litOf (w : List Char) : plainRx (litOf w) = true := by
  induction w with
  | nil => rfl
  | cons c cs ih => simp [litOf, plainRx, ih]

theorem plainRx_addressClause (tag p b : List Char) :
    plainRx (addressClause tag p b) = true := by
  simp [addressClause, plainRx, ropt, ws, plainRx_litOf]

end ValveBot

namespace ValveBot

/-- Exact language of the compiled address clause with literal components:
optional leading whitespace, then the bare tag, the channel prefix alone,
the channel prefix then whitespace and the tag, or the default prefix then
whitespace and the tag, then optional trailing whitespace. -/
theorem matches_addressClause_core {tag p b u : List Char} :
    Matches (addressClause tag p b) u ↔
      ∃ w core w3, u = w ++ core ++ w3 ∧
        (∀ c ∈ w, c ∈ wsChars) ∧ (∀ c ∈ w3, c ∈ wsChars) ∧
        (core = tag ∨ core = p ∨
          (∃ w2, (∀ c ∈ w2, c ∈ wsChars) ∧ core = p ++ w2 ++ tag) ∨
          (∃ w2, (∀ c ∈ w2, c ∈ wsChars) ∧ core = b ++ w2 ++ tag)) := by
  constructor
  · intro hm
    rw [addressClause] at hm
    obtain ⟨w, rest1, rfl, hw, hrest1⟩ := matches_cat_iff.mp hm
    obtain ⟨u1, w3, rfl, hbig, hw3⟩ := matches_cat_iff.mp hrest1
    have hwws : ∀ c ∈ w, c ∈ wsChars := by
      have := hw
      simp only [ws] at this
      exact matches_star_cls.mp this
    have hw3ws : ∀ c ∈ w3, c ∈ wsChars := by
      have := hw3
      simp only [ws] at this
      exact matches_star_cls.mp this
    refine ⟨w, u1, w3, by rw [List.append_assoc], hwws, hw3ws, ?_⟩
    have hbig' := matches_group_iff.mp hbig
    rcases matches_alt_iff.mp hbig' with h1 | h23
    · exact Or.inl (matches_litOf.mp (matches_group_iff.mp h1))
    rcases matches_alt_iff.mp h23 with h2 | h3
    · have h2' := matches_group_iff.mp h2
      obtain ⟨p', v, rfl, hp', hv⟩ := matches_cat_iff.mp h2'
      have hpp : p' = p := matches_litOf.mp (matches_group_iff.mp hp')
      rcases matches_alt_iff.mp hv with hv1 | hv2
      · have hv1' := matches_group_iff.mp hv1
        obtain ⟨w2, tag', rfl, hw2, htag'⟩ := matches_cat_iff.mp hv1'
        have hw2ws : ∀ c ∈ w2, c ∈ wsChars := by
          have := hw2
          simp only [ws] at this
          exact matches_star_cls.mp this
        have htag : tag' = tag := matches_litOf.mp htag'
        refine Or.inr (Or.inr (Or.inl ⟨w2, hw2ws, ?_⟩))
        rw [hpp, htag, List.append_assoc]
      · have : v = [] := matches_eps_iff.mp hv2
        subst this
        rw [List.append_nil, hpp]
        exact Or.inr (Or.inl rfl)
    · have h3' := matches_group_iff.mp h3
      obtain ⟨b', v, rfl, hb', hv⟩ := matches_cat_iff.mp h3'
      have hbb : b' = b := matches_litOf.mp (matches_group_iff.mp hb')
      obtain ⟨w2, tag', rfl, hw2, htag'⟩ := matches_cat_iff.mp hv
      have hw2ws : ∀ c ∈ w2, c ∈ wsChars := by
        have := hw2
        simp only [ws] at this
        exact matches_star_cls.mp this
      have htag : tag' = tag := matches_litOf.mp (matches_group_iff.mp htag')
      refine Or.inr (Or.inr (Or.inr ⟨w2, hw2ws, ?_⟩))
      rw [hbb, htag, List.append_assoc]
  · rintro ⟨w, core, w3, rfl, hw, hw3, hcore⟩
    have hwm : Matches (.star ws) w := by
      simp only [ws]
      exact matches_star_cls.mpr hw
    have hw3m : Matches (.star ws) w3 := by
      simp only [ws]
      exact matches_star_cls.mpr hw3
    have hbig : Matches
        (.alt (.group 2 (litOf tag))
          (.alt
            (.group 3 (.cat (.group 4 (litOf p))
              (ropt (.group 5 (.cat (.star ws) (litOf tag))))))
            (.group 6 (.cat (.group 7 (litOf b))
              (.cat (.star ws) (.group 8 (litOf tag))))))) core := by
      rcases hcore with rfl | rfl | ⟨w2, hw2, rfl⟩ | ⟨w2, hw2, rfl⟩
      · exact Matches.altL (Matches.group (matches_litOf.mpr rfl))
      · apply Matches.altR
        apply Matches.altL
        apply Matches.group
        have : Matches (.cat (.group 4 (litOf core))
            (ropt (.group 5 (.cat (.star ws) (litOf tag))))) (core ++ []) :=
          Matches.cat (Matches.group (matches_litOf.mpr rfl))
            (Matches.altR Matches.eps)
        simpa using this
      · apply Matches.altR
        apply Matches.altL
        apply Matches.group
        rw [List.append_assoc]
        refine Matches.cat (Matches.group (matches_litOf.mpr rfl)) ?_
        exact Matches.altL (Matches.group
          (Matches.cat (by simp only [ws]; exact matches_star_cls.mpr hw2)
            (matches_litOf.mpr rfl)))
      · apply Matches.altR
        apply Matches.altR
        apply Matches.group
        rw [List.append_assoc]
        refine Matches.cat (Matches.group (matches_litOf.mpr rfl)) ?_
        exact Matches.cat (by simp only [ws]; exact matches_star_cls.mpr hw2)
          (Matches.group (matches_litOf.mpr rfl))
    rw [addressClause]
    rw [List.append_assoc]
    exact Matches.cat hwm (Matches.cat (Matches.group hbig) hw3m)

end ValveBot

namespace ValveBot

theorem escapeStringRegexp_eq_self {s : String}
    (h : ∀ c ∈ s.data, c ∉ escapeRegexChars) : escapeStringRegexp s = s := by
  obtain ⟨l⟩ := s
  unfold escapeStringRegexp
  congr 1
  induction l with
  | nil => rfl
  | cons c cs ih =>
    have hc : c ∉ escapeRegexChars := h c (by simp)
    simp only [List.flatMap_cons, if_neg hc]
    rw [ih (fun c' hc' => h c' (by simp [hc']))]
    rfl

/-- The clause accepts a message iff, after optional leading whitespace, the
message continues with the bare tag, the channel prefix (optionally
followed by whitespace and the tag), or the default prefix followed by
optional whitespace and the tag. -/
theorem addressClauseMatches_iff (tag p b s : List Char) :
    addressClauseMatches tag p b s = true ↔
      ∃ w core rest, s = w ++ core ++ rest ∧ (∀ c ∈ w, c ∈ wsChars) ∧
        (core = tag ∨ core = p ∨
          (∃ w2, (∀ c ∈ w2, c ∈ wsChars) ∧ core = p ++ w2 ++ tag) ∨
          (∃ w2, (∀ c ∈ w2, c ∈ wsChars) ∧ core = b ++ w2 ++ tag)) := by
  constructor
  · intro h
    have hne : mcap (addressClause tag p b) s [] ≠ [] := by
      intro h0
      rw [addressClauseMatches, h0] at h
      simp at h
    obtain ⟨⟨g', t⟩, hmem⟩ := List.exists_mem_of_ne_nil _ hne
    obtain ⟨u, hs, hm⟩ :=
      (mcap_iff_matches _ (plainRx_addressClause tag p b) s [] t).mp ⟨g', hmem⟩
    obtain ⟨w, core, w3, rfl, hw, _, hcore⟩ := matches_addressClause_core.mp hm
    refine ⟨w, core, w3 ++ t, ?_, hw, hcore⟩
    rw [hs]
    simp only [List.append_assoc]
  · rintro ⟨w, core, rest, rfl, hw, hcore⟩
    have hm : Matches (addressClause tag p b) (w ++ core ++ []) :=
      matches_addressClause_core.mpr
        ⟨w, core, [], rfl, hw, by simp, hcore⟩
    rw [List.append_nil] at hm
    obtain ⟨g', hmem⟩ :=
      (mcap_iff_matches _ (plainRx_addressClause tag p b)
        (w ++ core ++ rest) [] rest).mpr ⟨w ++ core, rfl, hm⟩
    rw [addressClauseMatches]
    simp only [Bool.not_eq_eq_eq_not, Bool.not_false, Bool.not_true]
    rw [List.isEmpty_eq_false]
    exact List.ne_nil_of_mem hmem

/-- **C3, amended**: in the compiled address clause the mention tag and the
channel prefix are regex-escaped before interpolation, but the bot's
default prefix is interpolated raw — the source string only coincides with
the fully escaped clause when the default prefix contains no regex
metacharacter.  For literal components the clause matches exactly the
messages that, after optional leading whitespace, begin with the bare tag,
the channel prefix optionally followed by (whitespace and) the tag, or the
default prefix followed by (optional whitespace and) the tag; in
particular, for prefix `/` and tag `@Bot` it matches `/help`, `@Bot help`
and `/ @Bot help`, and matches neither `helper` nor `xhelp`. -/
theorem addressClause_escaping_and_matching :
    (∀ tagS pS bS : String, (∀ c ∈ bS.data, c ∉ escapeRegexChars) →
      addressClauseString tagS pS bS = addressClauseStringSpec tagS pS bS) ∧
    (∀ tag p b s : List Char,
      addressClauseMatches tag p b s = true ↔
        ∃ w core rest, s = w ++ core ++ rest ∧ (∀ c ∈ w, c ∈ wsChars) ∧
          (core = tag ∨ core = p ∨
            (∃ w2, (∀ c ∈ w2, c ∈ wsChars) ∧ core = p ++ w2 ++ tag) ∨
            (∃ w2, (∀ c ∈ w2, c ∈ wsChars) ∧ core = b ++ w2 ++ tag))) ∧
    (addressClauseMatches "@Bot".data "/".data "/".data "/help".data = true ∧
      addressClauseMatches "@Bot".data "/".data "/".data "@Bot help".data = true ∧
      addressClauseMatches "@Bot".data "/".data "/".data "/ @Bot help".data = true ∧
      addressClauseMatches "@Bot".data "/".data "/".data "helper".data = false ∧
      addressClauseMatches "@Bot".data "/".data "/".data "xhelp".data = false) := by
  refine ⟨?_, addressClauseMatches_iff,
    by decide, by decide, by decide, by decide, by decide⟩
  intro tagS pS bS hb
  rw [addressClauseString, addressClauseStringSpec,
    escapeStringRegexp_eq_self hb]

/-- **C3, counterexample**: the claim that every literal component is
regex-escaped before interpolation is false: with default prefix `+` the
interpolated clause differs from the fully escaped one — it contains the
bare group `(+)`, a quantifier with nothing to repeat, which corrupts the
compiled pattern. -/
theorem addressClause_unescaped_default_counterexample :
    addressClauseString "@Bot" "/" "+" ≠ addressClauseStringSpec "@Bot" "/" "+" ∧
    addressClauseString "@Bot" "/" "+" =
      "^\\s*((@Bot)|((/)(\\s*@Bot)?)|((+)\\s*(@Bot)))\\s*" ∧
    addressClauseStringSpec "@Bot" "/" "+" =
      "^\\s*((@Bot)|((/)(\\s*@Bot)?)|((\\+)\\s*(@Bot)))\\s*" := by
  refine ⟨by decide, by decide, by decide⟩

/-! ## Claim C2 -/

/-- **C2, amended**: under the per-command registration of the Telegram
dispatch, every registered command whose compiled pattern matches the
message text executes — matching is decided per listener, so when an
earlier command A and a later command C both match, both handlers run. -/
theorem executedCommands_every_match_runs (userTag defaultPrefixStr : String)
    (channel : TgChannel) (cmds : List Command) (text : String)
    (A C : Command) (hA : A ∈ cmds) (hC : C ∈ cmds)
    (hmA : rxTest (commandRegExp userTag defaultPrefixStr channel A) text.data = true)
    (hmC : rxTest (commandRegExp userTag defaultPrefixStr channel C) text.data = true) :
    A ∈ executedCommands userTag defaultPrefixStr channel cmds text ∧
    C ∈ executedCommands userTag defaultPrefixStr channel cmds text :=
  ⟨List.mem_filter.mpr ⟨hA, hmA⟩, List.mem_filter.mpr ⟨hC, hmC⟩⟩

/-- Witness for the amended C2: the commands `cmdA` and `cmdC` both match
`/ping` on a channel with prefix `/`, and both execute. -/
theorem executedCommands_every_match_runs_witness :
    cmdA ∈ executedCommands "@Bot" "/" { prefixStr := "/" } [cmdA, cmdC] "/ping" ∧
    cmdC ∈ executedCommands "@Bot" "/" { prefixStr := "/" } [cmdA, cmdC] "/ping" :=
  executedCommands_every_match_runs "@Bot" "/" { prefixStr := "/" }
    [cmdA, cmdC] "/ping" cmdA cmdC (by decide) (by decide) (by decide) (by decide)

/-- **C2, counterexample**: the claim that at most one command handler
executes per message, the first structurally matching one, is false: the
Telegram dispatch registers each command as its own `message` listener, so
for the text `/ping`, which both the earlier `cmdA` and the later `cmdC`
match, both handlers execute — `cmdC` runs although `cmdA` matched
first. -/
theorem telegram_first_match_wins_counterexample :
    executedCommands "@Bot" "/" { prefixStr := "/" } [cmdA, cmdC] "/ping" =
      [cmdA, cmdC] ∧
    (executedCommands "@Bot" "/" { prefixStr := "/" } [cmdA, cmdC] "/ping").length
      = 2 := by
  refine ⟨by decide, by decide⟩

end ValveBot

namespace ValveBot

/-! ## Claim C9 -/

theorem starLoop_count_le (c : Char) (r : Rx)
    (ihr : ∀ (s : List Char) (g g' : Groups) (t : List Char),
      (g', t) ∈ mcap r s g → minCount c r + t.count c ≤ s.count c) :
    ∀ (fuel : Nat) (s : List Char) (g g' : Groups) (t : List Char),
      (g', t) ∈ starLoop (fun s' g' => mcap r s' g') fuel s g →
      t.count c ≤ s.count c := by
  intro fuel
  induction fuel with
  | zero =>
    intro s g g' t h
    simp only [starLoop, List.mem_singleton, Prod.mk.injEq] at h
    rw [h.2]
  | succ n ihf =>
    intro s g g' t h
    simp only [starLoop, List.mem_append, List.mem_flatMap, List.mem_filter,
      List.mem_singleton, Prod.mk.injEq] at h
    rcases h with ⟨⟨g1, m⟩, ⟨hmem, _⟩, hrest⟩ | ⟨_, rfl⟩
    · have h1 := ihr s g g1 m hmem
      have h2 := ihf m g1 g' t hrest
      omega
    · exact Nat.le_refl _

/-- Any candidate match consumes at least `minCount c r` occurrences of
`c`: a count-based lower bound on the consumed prefix. -/
theorem mcap_count_le (c : Char) :
    ∀ (r : Rx) (s : List Char) (g g' : Groups) (t : List Char),
      (g', t) ∈ mcap r s g → minCount c r + t.count c ≤ s.count c := by
  intro r
  induction r with
  | eps =>
    intro s g g' t h
    simp only [mcap, List.mem_singleton, Prod.mk.injEq] at h
    rw [h.2, minCount]
    omega
  | lit c' =>
    intro s g g' t h
    cases s with
    | nil => simp [mcap] at h
    | cons ch rest =>
      simp only [mcap] at h
      by_cases hch : ch = c'
      · rw [if_pos hch] at h
        simp only [List.mem_singleton, Prod.mk.injEq] at h
        rw [h.2, minCount, List.count_cons, hch]
        by_cases hcc : c' = c
        · simp [hcc]
          omega
        · simp [hcc]
      · rw [if_neg hch] at h
        simp at h
  | cls cs =>
    intro s g g' t h
    cases s with
    | nil => simp [mcap] at h
    | cons ch rest =>
      simp only [mcap] at h
      by_cases hch : ch ∈ cs
      · rw [if_pos hch] at h
        simp only [List.mem_singleton, Prod.mk.injEq] at h
        rw [h.2, minCount, List.count_cons]
        omega
      · rw [if_neg hch] at h
        simp at h
  | ncls cs =>
    intro s g g' t h
    cases s with
    | nil => simp [mcap] at h
    | cons ch rest =>
      simp only [mcap] at h
      by_cases hch : ch ∈ cs
      · rw [if_pos hch] at h
        simp at h
      · rw [if_neg hch] at h
        simp only [List.mem_singleton, Prod.mk.injEq] at h
        rw [h.2, minCount, List.count_cons]
        omega
  | cat r1 r2 ih1 ih2 =>
    intro s g g' t h
    simp only [mcap, List.mem_flatMap] at h
    obtain ⟨⟨g1, m⟩, hmem1, hmem2⟩ := h
    have h1 := ih1 s g g1 m hmem1
    have h2 := ih2 m g1 g' t hmem2
    rw [minCount]
    omega
  | alt r1 r2 ih1 ih2 =>
    intro s g g' t h
    simp only [mcap, List.mem_append] at h
    rw [minCount]
    rcases h with h | h
    · have := ih1 s g g' t h
      have := Nat.min_le_left (minCount c r1) (minCount c r2)
      omega
    · have := ih2 s g g' t h
      have := Nat.min_le_right (minCount c r1) (minCount c r2)
      omega
  | star r ih =>
    intro s g g' t h
    simp only [mcap] at h
    have := starLoop_count_le c r ih (s.length + 1) s g g' t h
    rw [minCount]
    omega
  | group n r ih =>
    intro s g g' t h
    simp only [mcap, List.mem_map, Prod.mk.injEq] at h
    obtain ⟨⟨g1, m⟩, hmem, _, ht⟩ := h
    have ht' : m = t := ht
    have := ih s g g1 m hmem
    rw [minCount, ← ht']
    omega
  | lookNeg r ih =>
    intro s g g' t h
    simp only [mcap] at h
    by_cases hE : (mcap r s g).isEmpty
    · rw [if_pos hE] at h
      simp only [List.mem_singleton, Prod.mk.injEq] at h
      rw [h.2, minCount]
      omega
    · rw [if_neg hE] at h
      simp at h
  | eol =>
    intro s g g' t h
    simp only [mcap] at h
    by_cases hE : s.isEmpty
    · rw [if_pos hE] at h
      simp only [List.mem_singleton, Prod.mk.injEq] at h
      rw [h.2, minCount]
      omega
    · rw [if_neg hE] at h
      simp at h

/-- A string with fewer occurrences of some character than the pattern
requires has no match at its head. -/
theorem mcap_eq_nil_of_count_lt (c : Char) (r : Rx) (s : List Char)
    (g : Groups) (h : s.count c < minCount c r) : mcap r s g = [] := by
  rcases hm : mcap r s g with _ | ⟨⟨g', t⟩, rest⟩
  · rfl
  · have := mcap_count_le c r s g g' t (by rw [hm]; exact List.mem_cons_self _ _)
    omega

theorem scanReplace_no_op (c : Char) (rx : Rx) (tmpl : List ReplPart) :
    ∀ (fuel : Nat) (s : List Char), s.count c < minCount c rx →
      scanReplace rx tmpl fuel s = s := by
  intro fuel
  induction fuel with
  | zero => intro s _; rfl
  | succ n ih =>
    intro s hc
    cases s with
    | nil =>
      rw [scanReplace, mcap_eq_nil_of_count_lt c rx [] [] (by simpa using hc)]
      rfl
    | cons ch rest =>
      rw [scanReplace, mcap_eq_nil_of_count_lt c rx (ch :: rest) [] hc]
      have hrest : rest.count c < minCount c rx := by
        have : rest.count c ≤ (ch :: rest).count c := by
          rw [List.count_cons]; omega
        omega
      rw [List.head?_nil]
      rw [ih rest hrest]

/-- A global replace pass over a string missing a mandatory character of
the pattern is the identity. -/
theorem jsReplaceAll_no_op (c : Char) (rx : Rx) (tmpl : List ReplPart)
    (s : List Char) (h : s.count c < minCount c rx) :
    jsReplaceAll rx tmpl s = s :=
  scanReplace_no_op c rx tmpl (s.length + 1) s h

/-- An anchored first-replace over a string missing a mandatory character
of the pattern is the identity. -/
theorem jsReplaceFirstAnchored_no_op (c : Char) (rx : Rx)
    (tmpl : List ReplPart) (s : List Char) (h : s.count c < minCount c rx) :
    jsReplaceFirstAnchored rx tmpl s = s := by
  rw [jsReplaceFirstAnchored, mcap_eq_nil_of_count_lt c rx s [] h]
  rfl

theorem splitNl_no_nl {t : List Char} (h : '\n' ∉ t) : splitNl t = [t] := by
  induction t with
  | nil => rfl
  | cons ch rest ih =>
    have hch : ¬(ch = '\n') := fun heq => h (heq ▸ List.mem_cons_self _ _)
    rw [splitNl, if_neg hch, ih (fun hm => h (List.mem_cons_of_mem _ hm))]

theorem splitNl_append_nl {t : List Char} (h : '\n' ∉ t) :
    splitNl (t ++ ['\n']) = [t, []] := by
  induction t with
  | nil => rfl
  | cons ch rest ih =>
    have hch : ¬(ch = '\n') := fun heq => h (heq ▸ List.mem_cons_self _ _)
    rw [List.cons_append, splitNl, if_neg hch,
      ih (fun hm => h (List.mem_cons_of_mem _ hm))]

/-- The per-line pass is the identity on a line containing neither `#` nor
`*`. -/
theorem mdLine_no_op {line : List Char}
    (hH : line.count '#' = 0) (hL : line.count '*' = 0) :
    mdLine line = line := by
  rw [mdLine, jsReplaceFirstAnchored_no_op '#' mdPH mdTH line
      (by rw [hH]; decide),
    jsReplaceFirstAnchored_no_op '*' mdPList mdTList line
      (by rw [hL]; decide)]

/-- The whole conversion of a nonempty inert text: every global pass and
both per-line passes are the identity, the text is a single line, and the
rejoin appends one `\n`. -/
theorem msgFromMarkdown_plain (l : List Char) (hne : l ≠ [])
    (hplain : ∀ c ∈ mdSpecialChars, l.count c ≤ 0) :
    msgFromMarkdown (String.mk l) = String.mk (l ++ ['\n']) := by
  have hz : ∀ c ∈ mdSpecialChars, l.count c = 0 := fun c hc =>
    Nat.le_zero.mp (hplain c hc)
  have hb := hz '[' (by decide)
  have hx := hz '!' (by decide)
  have ha := hz '*' (by decide)
  have hu := hz '_' (by decide)
  have hh := hz '#' (by decide)
  have hn := hz '\n' (by decide)
  have hsne : String.mk l ≠ "" := by
    intro h0
    apply hne
    have := congrArg String.data h0
    simpa using this
  rw [msgFromMarkdown, if_neg hsne]
  simp only
  rw [jsReplaceAll_no_op '[' mdP1 mdT1 l (by rw [hb]; decide),
    jsReplaceAll_no_op '[' mdP2 mdT2 l (by rw [hb]; decide),
    jsReplaceAll_no_op '!' mdP3 mdT3 l (by rw [hx]; decide),
    jsReplaceAll_no_op '!' mdP4 mdT4 l (by rw [hx]; decide),
    jsReplaceAll_no_op '*' mdP5 mdT5 l (by rw [ha]; decide),
    jsReplaceAll_no_op '_' mdP6 mdT67 l (by rw [hu]; decide),
    jsReplaceAll_no_op '*' mdP7 mdT67 l (by rw [ha]; decide),
    jsReplaceAll_no_op '*' mdP8 mdT8 l (by rw [ha]; decide),
    jsReplaceAll_no_op '_' mdP9 mdT9 l (by rw [hu]; decide),
    jsReplaceAll_no_op '[' mdP10 mdTLink l (by rw [hb]; decide),
    jsReplaceAll_no_op '[' mdP11 mdTLink l (by rw [hb]; decide),
    jsReplaceAll_no_op '*' mdP12 mdTLink l (by rw [ha]; decide),
    jsReplaceAll_no_op '_' mdP13 mdTLink l (by rw [hu]; decide),
    jsReplaceAll_no_op '*' mdP14 mdTEmpty l (by rw [ha]; decide),
    jsReplaceAll_no_op '_' mdP15 mdTEmpty l (by rw [hu]; decide),
    jsReplaceAll_no_op '\n' mdP16 mdT16 l (by rw [hn]; decide)]
  rw [splitNl_no_nl (List.count_eq_zero.mp hn)]
  rw [List.map_singleton, mdLine_no_op hh ha]
  simp

end ValveBot

namespace ValveBot

/-- The conversion of an inert text that already ends in the appended line
break: the global passes are still the identity (one line break is fewer
than the two the compression rule needs), the split yields the text plus an
empty trailing line, and the rejoin appends a `\n` to both. -/
theorem msgFromMarkdown_plain_nl (l : List Char)
    (hplain : ∀ c ∈ mdSpecialChars, l.count c ≤ 0) :
    msgFromMarkdown (String.mk (l ++ ['\n'])) = String.mk (l ++ ['\n', '\n']) := by
  have hz : ∀ c ∈ mdSpecialChars, l.count c = 0 := fun c hc =>
    Nat.le_zero.mp (hplain c hc)
  have hcount : ∀ c ∈ mdSpecialChars, c ≠ '\n' → (l ++ ['\n']).count c = 0 := by
    intro c hc hcn
    rw [List.count_append, hz c hc]
    simp [List.count_singleton', hcn]
  have hb := hcount '[' (by decide) (by decide)
  have hx := hcount '!' (by decide) (by decide)
  have ha := hcount '*' (by decide) (by decide)
  have hu := hcount '_' (by decide) (by decide)
  have hh := hcount '#' (by decide) (by decide)
  have hn : (l ++ ['\n']).count '\n' = 1 := by
    rw [List.count_append, hz '\n' (by decide)]
    simp
  have hsne : String.mk (l ++ ['\n']) ≠ "" := by
    intro h0
    have := congrArg String.data h0
    simp at this
  rw [msgFromMarkdown, if_neg hsne]
  simp only
  rw [jsReplaceAll_no_op '[' mdP1 mdT1 _ (by rw [hb]; decide),
    jsReplaceAll_no_op '[' mdP2 mdT2 _ (by rw [hb]; decide),
    jsReplaceAll_no_op '!' mdP3 mdT3 _ (by rw [hx]; decide),
    jsReplaceAll_no_op '!' mdP4 mdT4 _ (by rw [hx]; decide),
    jsReplaceAll_no_op '*' mdP5 mdT5 _ (by rw [ha]; decide),
    jsReplaceAll_no_op '_' mdP6 mdT67 _ (by rw [hu]; decide),
    jsReplaceAll_no_op '*' mdP7 mdT67 _ (by rw [ha]; decide),
    jsReplaceAll_no_op '*' mdP8 mdT8 _ (by rw [ha]; decide),
    jsReplaceAll_no_op '_' mdP9 mdT9 _ (by rw [hu]; decide),
    jsReplaceAll_no_op '[' mdP10 mdTLink _ (by rw [hb]; decide),
    jsReplaceAll_no_op '[' mdP11 mdTLink _ (by rw [hb]; decide),
    jsReplaceAll_no_op '*' mdP12 mdTLink _ (by rw [ha]; decide),
    jsReplaceAll_no_op '_' mdP13 mdTLink _ (by rw [hu]; decide),
    jsReplaceAll_no_op '*' mdP14 mdTEmpty _ (by rw [ha]; decide),
    jsReplaceAll_no_op '_' mdP15 mdTEmpty _ (by rw [hu]; decide),
    jsReplaceAll_no_op '\n' mdP16 mdT16 _ (by rw [hn]; decide)]
  rw [splitNl_append_nl (List.count_eq_zero.mp (hz '\n' (by decide)))]
  have hml0 : mdLine ([] : List Char) = [] := mdLine_no_op (by decide) (by decide)
  rw [List.map_cons, List.map_cons, List.map_nil,
    mdLine_no_op (hz '#' (by decide)) (hz '*' (by decide)), hml0]
  simp

/-- **C9, amended**: the Telegram markdown conversion is not idempotent:
the rejoin step appends a line break after every line, so on any nonempty
text containing none of the conversion's markdown characters (no bracket,
`!`, `*`, `_`, `#` or line break) one application appends `\n` and a second
application appends a further `\n`, giving a different string. -/
theorem msgFromMarkdown_not_idempotent (l : List Char) (hne : l ≠ [])
    (hplain : ∀ c ∈ mdSpecialChars, l.count c ≤ 0) :
    msgFromMarkdown (String.mk l) = String.mk (l ++ ['\n']) ∧
    msgFromMarkdown (msgFromMarkdown (String.mk l)) =
      String.mk (l ++ ['\n', '\n']) ∧
    msgFromMarkdown (msgFromMarkdown (String.mk l)) ≠
      msgFromMarkdown (String.mk l) := by
  have h1 := msgFromMarkdown_plain l hne hplain
  have h2 : msgFromMarkdown (msgFromMarkdown (String.mk l)) =
      String.mk (l ++ ['\n', '\n']) := by
    rw [h1]
    have := msgFromMarkdown_plain_nl l hplain
    simpa using this
  refine ⟨h1, h2, ?_⟩
  rw [h2, h1]
  intro h0
  have hdata := congrArg String.data h0
  simp only at hdata
  have := congrArg List.length hdata
  simp at this

/-- Witness for the amended C9 at the concrete text `abc`. -/
theorem msgFromMarkdown_not_idempotent_witness :
    msgFromMarkdown (String.mk "abc".data) = String.mk ("abc".data ++ ['\n']) ∧
    msgFromMarkdown (msgFromMarkdown (String.mk "abc".data)) =
      String.mk ("abc".data ++ ['\n', '\n']) ∧
    msgFromMarkdown (msgFromMarkdown (String.mk "abc".data)) ≠
      msgFromMarkdown (String.mk "abc".data) :=
  msgFromMarkdown_not_idempotent "abc".data (by decide) (by decide)

/-- **C9, counterexample**: the conversion is not idempotent: at the input
`abc` one application yields `abc` plus a line break and a second
application appends another, so applying it twice differs from applying it
once. -/
theorem msgFromMarkdown_idempotence_counterexample :
    msgFromMarkdown "abc" = "abc\n" ∧
    msgFromMarkdown (msgFromMarkdown "abc") = "abc\n\n" ∧
    msgFromMarkdown (msgFromMarkdown "abc") ≠ msgFromMarkdown "abc" :=
  ⟨by decide, by decide, by decide⟩

end ValveBot
